import Mathlib

/-!
Verification development for the rates-trading repository.

The delta engine (`packages/rates-blotter-backend/src/utils/deltaUpdates.ts`)
operates on JavaScript objects: flat-or-shallowly-nested records mapping
field names to primitive values, dates, arrays, or nested plain objects.
We embed such values as the inductive type `Value` (JS `null` and `undefined`
do not occur inside instrument records and are not modelled here; the
explicitly-`undefined` optional trade fields of the simulator are modelled
separately with `Option`).

JavaScript numbers are modelled as rationals: every claim settled here
depends only on the field-by-field `==`/`!==` comparисons and on ordered
arithmetic that is exact on the instrument values involved.
-/

namespace RatesTrading

/-- A JavaScript value as used by instrument records: number, string,
boolean, `Date` (held as its epoch-millisecond time), array, or plain
object (an insertion-ordered association list of fields). -/
inductive Value where
  | num  : ℚ → Value
  | str  : String → Value
  | bool : Bool → Value
  | date : Int → Value
  | arr  : List Value → Value
  | obj  : List (String × Value) → Value
  deriving Repr

/-- A record: the field map of a JS object, in insertion order. -/
abbrev Rec := List (String × Value)

/-- Lookup `original[key]` — first entry with the given key, if any. -/
def getKey : Rec → String → Option Value
  | [], _ => none
  | (k1, v) :: t, k => if k1 = k then some v else getKey t k

/-- Assignment `result[key] = v` — JS assignment: overwrite the existing entry in
place (JS objects keep the original insertion position of a reassigned
key) or append a new entry. -/
def setKey : Rec → String → Value → Rec
  | [], k, v => [(k, v)]
  | (k1, v1) :: t, k, v =>
    if k1 = k then (k1, v) :: t else (k1, v1) :: setKey t k v

mutual

/-- Weight of a value, used as the termination measure of the delta
functions (the string keys are not counted, so that viewing an array as
an index-keyed object does not increase the measure). -/
def vsize : Value → Nat
  | .num _ => 1
  | .str _ => 1
  | .bool _ => 1
  | .date _ => 1
  | .arr l => 1 + lsize l
  | .obj l => 1 + esize l

/-- Weight of an array's element list. -/
def lsize : List Value → Nat
  | [] => 0
  | v :: t => 1 + vsize v + lsize t

/-- Weight of a field list. -/
def esize : Rec → Nat
  | [] => 0
  | (_, v) :: t => 1 + vsize v + esize t

end

mutual

/-- Structural equality of values: numbers, strings, booleans by `==`,
dates by epoch time, arrays length-and-element-wise, objects
field-list-wise. -/
def beqV : Value → Value → Bool
  | .num a, .num b => a == b
  | .str a, .str b => a == b
  | .bool a, .bool b => a == b
  | .date a, .date b => a == b
  | .arr a, .arr b => beqL a b
  | .obj a, .obj b => beqE a b
  | _, _ => false

/-- Element-wise equality of arrays. -/
def beqL : List Value → List Value → Bool
  | [], [] => true
  | a :: t, b :: u => beqV a b && beqL t u
  | _, _ => false

/-- Entry-wise equality of field lists. -/
def beqE : Rec → Rec → Bool
  | [], [] => true
  | (k1, v1) :: t, (k2, v2) :: u => k1 == k2 && beqV v1 v2 && beqE t u
  | _, _ => false

end

theorem beq_iff_eq_upto (n : Nat) :
    (∀ a b : Value, vsize a ≤ n → (beqV a b = true ↔ a = b)) ∧
    (∀ l m : List Value, lsize l ≤ n → (beqL l m = true ↔ l = m)) ∧
    (∀ e f : Rec, esize e ≤ n → (beqE e f = true ↔ e = f)) := by
  induction n using Nat.strong_induction_on with
  | _ n ih =>
    refine ⟨?_, ?_, ?_⟩
    · intro a b h
      cases a with
      | num x => cases b <;> simp [beqV]
      | str x => cases b <;> simp [beqV]
      | bool x => cases b <;> simp [beqV]
      | date x => cases b <;> simp [beqV]
      | arr l =>
        cases b <;> simp only [beqV, Value.arr.injEq, reduceCtorEq,
          Bool.false_eq_true, false_iff, not_false_eq_true, iff_false]
        case arr m =>
          have h1 : lsize l ≤ n - 1 := by simp [vsize] at h; omega
          have hn : n - 1 < n := by simp [vsize] at h; omega
          exact (ih (n - 1) hn).2.1 l m h1
      | obj e =>
        cases b <;> simp only [beqV, Value.obj.injEq, reduceCtorEq,
          Bool.false_eq_true, false_iff, not_false_eq_true, iff_false]
        case obj f =>
          have h1 : esize e ≤ n - 1 := by simp [vsize] at h; omega
          have hn : n - 1 < n := by simp [vsize] at h; omega
          exact (ih (n - 1) hn).2.2 e f h1
    · intro l m h
      cases l <;> cases m <;> simp_all [beqL, lsize]
      case cons.cons a t b u =>
        have hn : n - 1 < n := by
          have : 1 ≤ vsize a := by cases a <;> simp [vsize]
          omega
        have hv := ((ih (n - 1) hn).1 a b (by omega))
        have hl := ((ih (n - 1) hn).2.1 t u (by omega))
        rw [hv, hl]
    · intro e f h
      cases e <;> cases f <;> simp_all [beqE, esize]
      case cons.cons kv t kw u =>
        obtain ⟨k1, v1⟩ := kv
        obtain ⟨k2, v2⟩ := kw
        simp only [beqE]
        have hn : n - 1 < n := by
          have : 1 ≤ vsize v1 := by cases v1 <;> simp [vsize]
          simp [esize] at h
          omega
        simp [esize] at h
        have hv := ((ih (n - 1) hn).1 v1 v2 (by omega))
        have he := ((ih (n - 1) hn).2.2 t u (by omega))
        simp only [Bool.and_eq_true, beq_iff_eq, hv, he, List.cons.injEq,
          Prod.mk.injEq]

instance : DecidableEq Value := fun a b =>
  decidable_of_iff _ ((beq_iff_eq_upto (vsize a)).1 a b le_rfl)

/-- A JS array seen through `for (const key in ...)`: index-keyed entries
(`"0"`, `"1"`, …).  `createDelta` reaches this view when exactly one of
the two compared values is an array. -/
def arrToObj (i : Nat) : List Value → Rec
  | [] => []
  | v :: t => (toString i, v) :: arrToObj (i + 1) t

theorem esize_arrToObj (i : Nat) (l : List Value) :
    esize (arrToObj i l) = lsize l := by
  induction l generalizing i with
  | nil => rfl
  | cons v t ih => simp [arrToObj, esize, lsize, ih]

mutual

/-- Function `createDelta` from `src/utils/deltaUpdates.ts` (lines 13–61): walk the
keys of `updated` in order and keep the fields whose value differs from
`original`'s, comparing `Date`s by epoch time, arrays by their serialised
form (= length-and-element-wise equality on `Value`), plain objects
recursively (keeping the non-empty nested delta), and everything else by
`!==`.  When exactly one side is an array the source's `typeof === 'object'`
test still sends the pair to the recursive branch, with the array viewed
as an index-keyed object. -/
def createDelta : Rec → Rec → Rec
  | _, [] => []
  | orig, (k, v) :: rest => deltaField orig k v ++ createDelta orig rest
  termination_by _ upd => esize upd
  decreasing_by
    all_goals simp_all [esize, vsize, esize_arrToObj]
    all_goals omega

/-- The contribution of one key of `updated` to the delta: the branch
ladder of `createDelta`'s loop body. -/
def deltaField (orig : Rec) (k : String) (v : Value) : Rec :=
  match getKey orig k, v with
  | some (.date t1), .date t2 =>
    if t2 ≠ t1 then [(k, .date t2)] else []
  | some (.arr a1), .arr a2 =>
    if a2 ≠ a1 then [(k, .arr a2)] else []
  | some (.obj o1), .obj o2 =>
    let nested := createDelta o1 o2
    if nested ≠ [] then [(k, .obj nested)] else []
  | some (.obj o1), .arr a2 =>
    let nested := createDelta o1 (arrToObj 0 a2)
    if nested ≠ [] then [(k, .obj nested)] else []
  | some (.arr a1), .obj o2 =>
    let nested := createDelta (arrToObj 0 a1) o2
    if nested ≠ [] then [(k, .obj nested)] else []
  | some v1, _ => if v ≠ v1 then [(k, v)] else []
  | none, _ => [(k, v)]
  termination_by vsize v
  decreasing_by
    all_goals simp_all [esize, vsize, esize_arrToObj]
    all_goals omega

end

mutual

/-- Function `applyDelta` from `src/utils/deltaUpdates.ts` (lines 70–100): start
from a copy of `target` and assign each delta field in order, recursing
when both the delta value and the current value are plain (non-array,
non-`Date`) objects and assigning directly otherwise. -/
def applyDelta : Rec → Rec → Rec
  | target, [] => target
  | target, (k, v) :: rest => applyDelta (applyField target k v) rest
  termination_by _ d => esize d
  decreasing_by
    all_goals simp_all [esize, vsize]
    all_goals omega

/-- One assignment of `applyDelta`'s loop body: recurse when both the
delta value and the current value are plain objects, assign directly
otherwise. -/
def applyField (target : Rec) (k : String) (v : Value) : Rec :=
  match getKey target k, v with
  | some (.obj tf), .obj df => setKey target k (.obj (applyDelta tf df))
  | _, _ => setKey target k v
  termination_by vsize v
  decreasing_by
    all_goals simp_all [esize, vsize]
    all_goals omega

end

/-- The keys of a record, in order. -/
def keysOf (r : Rec) : List String := r.map Prod.fst

/-- Well-formedness of the object values nested in a field list: no JS
object carries a duplicate key. -/
def wfVals : Rec → Bool
  | [] => true
  | (_, .obj l) :: t =>
    decide (keysOf l).Nodup && wfVals l && wfVals t
  | (_, _) :: t => wfVals t
  termination_by r => esize r
  decreasing_by all_goals simp_all [esize, vsize, keysOf]; all_goals omega

/-- A well-formed JS record: distinct keys, recursively in nested
objects. -/
def wfR (r : Rec) : Bool := decide (keysOf r).Nodup && wfVals r

mutual

/-- Two records have the same field structure: the same keys in the same
order, nested plain objects aligned with nested plain objects of the
same structure, and no field where one side is an array and the other a
plain object.  This is the \"same field structure\" premise of the
delta/apply round-trip. -/
def sameShape : Rec → Rec → Bool
  | [], [] => true
  | (k1, v1) :: t1, (k2, v2) :: t2 =>
    k1 == k2 && shapeComp v1 v2 && sameShape t1 t2
  | _, _ => false

/-- Field-wise structure comparison underlying `sameShape`. -/
def shapeComp : Value → Value → Bool
  | .obj a, .obj b => sameShape a b
  | .obj _, .arr _ => false
  | .arr _, .obj _ => false
  | _, _ => true

end

theorem getKey_eq_some_mem {r : Rec} {k : String} {v : Value}
    (h : getKey r k = some v) : k ∈ keysOf r := by
  induction r with
  | nil => simp [getKey] at h
  | cons kv t ih =>
    obtain ⟨k1, v1⟩ := kv
    by_cases hk : k1 = k
    · subst hk; simp [keysOf]
    · simp only [getKey, if_neg hk] at h
      simpa [keysOf] using Or.inr (by simpa [keysOf] using ih h)

theorem getKey_eq_none_of_not_mem {r : Rec} {k : String}
    (h : k ∉ keysOf r) : getKey r k = none := by
  induction r with
  | nil => rfl
  | cons kv t ih =>
    obtain ⟨k1, v1⟩ := kv
    simp only [keysOf, List.map_cons, List.mem_cons, not_or] at h
    have hk : k1 ≠ k := fun e => h.1 e.symm
    simp only [getKey, if_neg hk]
    exact ih (by simpa [keysOf] using h.2)

theorem getKey_cons_self (k : String) (v : Value) (t : Rec) :
    getKey ((k, v) :: t) k = some v := by simp [getKey]

theorem getKey_cons_ne {k1 k : String} (h : k1 ≠ k) (v : Value) (t : Rec) :
    getKey ((k1, v) :: t) k = getKey t k := by simp [getKey, h]

theorem setKey_cons_self (k : String) (x v : Value) (t : Rec) :
    setKey ((k, x) :: t) k v = (k, v) :: t := by simp [setKey]

theorem setKey_cons_ne {k1 k : String} (h : k1 ≠ k) (x v : Value) (t : Rec) :
    setKey ((k1, x) :: t) k v = (k1, x) :: setKey t k v := by
  simp [setKey, h]

theorem one_le_vsize (v : Value) : 1 ≤ vsize v := by
  cases v <;> simp [vsize]

/-- A `deltaField` result is empty or a single entry under the inspected key. -/
theorem deltaField_shape (orig : Rec) (k : String) (v : Value) :
    deltaField orig k v = [] ∨ ∃ w, deltaField orig k v = [(k, w)] := by
  unfold deltaField
  split <;> (try dsimp only) <;> first
    | exact Or.inr ⟨_, rfl⟩
    | (split
       · exact Or.inr ⟨_, rfl⟩
       · exact Or.inl rfl)

/-- Every key of a delta is a key of `updated`. -/
theorem createDelta_key_mem {orig upd : Rec} {k : String} {v : Value}
    (h : (k, v) ∈ createDelta orig upd) : k ∈ keysOf upd := by
  induction upd with
  | nil => simp [createDelta] at h
  | cons kv rest ih =>
    obtain ⟨k0, v0⟩ := kv
    rw [createDelta] at h
    rcases List.mem_append.1 h with h1 | h2
    · rcases deltaField_shape orig k0 v0 with hd | ⟨w, hd⟩
      · simp [hd] at h1
      · rw [hd] at h1
        simp only [List.mem_singleton, Prod.mk.injEq] at h1
        simp [keysOf, h1.1]
    · simp only [keysOf, List.map_cons, List.mem_cons]
      exact Or.inr (ih h2)

/-- Every entry of a delta differs from the corresponding field of
`original` (missing fields included): the §4.D non-equality guarantee of
the delta engine. -/
theorem createDelta_entry_ne {orig upd : Rec} {k : String} {v : Value}
    (h : (k, v) ∈ createDelta orig upd) : getKey orig k ≠ some v := by
  suffices H : ∀ n orig upd, esize upd ≤ n → ∀ k v,
      (k, v) ∈ createDelta orig upd → getKey orig k ≠ some v from
    H (esize upd) orig upd le_rfl k v h
  intro n
  induction n using Nat.strong_induction_on with
  | _ n ih =>
    intro orig upd hsz k v h
    match upd with
    | [] => simp [createDelta] at h
    | (k0, v0) :: rest =>
      rw [createDelta] at h
      rcases List.mem_append.1 h with h1 | h2
      · have hv0 : 1 ≤ vsize v0 := one_le_vsize v0
        simp only [esize] at hsz
        unfold deltaField at h1
        split at h1
        · next t1 t2 heq =>
          split at h1
          · next hne =>
            simp only [List.mem_singleton, Prod.mk.injEq] at h1
            obtain ⟨rfl, rfl⟩ := h1
            rw [heq]
            intro hc
            exact hne (by injection hc with hh; injection hh with he; exact he.symm)
          · simp at h1
        · next a1 a2 heq =>
          split at h1
          · next hne =>
            simp only [List.mem_singleton, Prod.mk.injEq] at h1
            obtain ⟨rfl, rfl⟩ := h1
            rw [heq]
            intro hc
            exact hne (by injection hc with hh; injection hh with he; exact he.symm)
          · simp at h1
        · next o1 o2 heq =>
          simp only at h1
          split at h1
          · next hne =>
            simp only [List.mem_singleton, Prod.mk.injEq] at h1
            obtain ⟨rfl, rfl⟩ := h1
            rw [heq]
            intro hc
            have ho : o1 = createDelta o1 o2 := by
              injection hc with hh; injection hh
            match hnest : createDelta o1 o2, hne with
            | (k1, w1) :: r, _ =>
              have hmem : (k1, w1) ∈ createDelta o1 o2 := by
                rw [hnest]; exact List.mem_cons_self _ _
              have hlt : esize o2 < n := by
                simp only [vsize] at hsz; omega
              have := ih (esize o2) hlt o1 o2 le_rfl k1 w1 hmem
              rw [ho, hnest] at this
              exact this (getKey_cons_self k1 w1 r)
          · simp at h1
        · next o1 a2 heq =>
          simp only at h1
          split at h1
          · next hne =>
            simp only [List.mem_singleton, Prod.mk.injEq] at h1
            obtain ⟨rfl, rfl⟩ := h1
            rw [heq]
            intro hc
            have ho : o1 = createDelta o1 (arrToObj 0 a2) := by
              injection hc with hh; injection hh
            match hnest : createDelta o1 (arrToObj 0 a2), hne with
            | (k1, w1) :: r, _ =>
              have hmem : (k1, w1) ∈ createDelta o1 (arrToObj 0 a2) := by
                rw [hnest]; exact List.mem_cons_self _ _
              have hlt : esize (arrToObj 0 a2) < n := by
                rw [esize_arrToObj]
                simp only [vsize] at hsz; omega
              have := ih _ hlt o1 (arrToObj 0 a2) le_rfl k1 w1 hmem
              rw [ho, hnest] at this
              exact this (getKey_cons_self k1 w1 r)
          · simp at h1
        · next a1 o2 heq =>
          simp only at h1
          split at h1
          · next hne =>
            simp only [List.mem_singleton, Prod.mk.injEq] at h1
            obtain ⟨rfl, rfl⟩ := h1
            rw [heq]
            simp
          · simp at h1
        · next v1 heq h5 h6 h7 h8 h9 =>
          split at h1
          · next hne =>
            simp only [List.mem_singleton, Prod.mk.injEq] at h1
            obtain ⟨rfl, rfl⟩ := h1
            rw [heq]
            exact fun hc => hne (by injection hc with he; exact he.symm)
          · simp at h1
        · next heq =>
          simp only [List.mem_singleton, Prod.mk.injEq] at h1
          obtain ⟨rfl, rfl⟩ := h1
          rw [heq]
          simp
      · have : esize rest < n := by
          have := one_le_vsize v0
          simp only [esize] at hsz; omega
        exact ih (esize rest) this orig rest le_rfl k v h2

theorem deltaField_congr {orig orig' : Rec} {k : String}
    (h : getKey orig k = getKey orig' k) (v : Value) :
    deltaField orig k v = deltaField orig' k v := by
  unfold deltaField
  rw [h]

/-- Prepending a key that `updated` does not use leaves the delta
unchanged. -/
theorem createDelta_cons_orig {k : String} (x : Value) (p rest : Rec)
    (h : k ∉ keysOf rest) : createDelta ((k, x) :: p) rest = createDelta p rest := by
  induction rest with
  | nil => rw [createDelta, createDelta]
  | cons kv r ih =>
    obtain ⟨k0, v0⟩ := kv
    simp only [keysOf, List.map_cons, List.mem_cons, not_or] at h
    rw [createDelta, createDelta, deltaField_congr (getKey_cons_ne h.1 x p) v0,
      ih (by simpa [keysOf] using h.2)]

theorem applyField_cons_ne {k1 k : String} (h : k1 ≠ k) (x : Value)
    (t : Rec) (v : Value) :
    applyField ((k1, x) :: t) k v = (k1, x) :: applyField t k v := by
  unfold applyField
  rw [getKey_cons_ne h]
  split
  · rw [setKey_cons_ne h]
  · rw [setKey_cons_ne h]

/-- Applying a delta that does not mention the head key leaves the head
entry in place. -/
theorem applyDelta_cons_skip {k : String} (x : Value) (d : Rec)
    (h : k ∉ keysOf d) (t : Rec) :
    applyDelta ((k, x) :: t) d = (k, x) :: applyDelta t d := by
  induction d generalizing t with
  | nil => rw [applyDelta, applyDelta]
  | cons kv r ih =>
    obtain ⟨k0, v0⟩ := kv
    simp only [keysOf, List.map_cons, List.mem_cons, not_or] at h
    rw [applyDelta, applyDelta, applyField_cons_ne h.1 x t v0]
    exact ih (by simpa [keysOf] using h.2) _

theorem wfR_cons {k : String} {v : Value} {t : Rec}
    (h : wfR ((k, v) :: t) = true) :
    k ∉ keysOf t ∧ wfR t = true ∧ ∀ f, v = .obj f → wfR f = true := by
  unfold wfR at h
  rw [Bool.and_eq_true, decide_eq_true_eq] at h
  obtain ⟨hn, hv⟩ := h
  simp only [keysOf, List.map_cons, List.nodup_cons] at hn
  have hwt : wfVals t = true ∧ ∀ f, v = .obj f → wfR f = true := by
    cases v with
    | obj f =>
      rw [wfVals] at hv
      simp only [Bool.and_eq_true, decide_eq_true_eq] at hv
      refine ⟨hv.2, fun g hg => ?_⟩
      cases hg
      unfold wfR
      rw [Bool.and_eq_true, decide_eq_true_eq]
      exact ⟨hv.1.1, hv.1.2⟩
    | num x => simp only [wfVals] at hv; exact ⟨hv, fun g hg => by simp at hg⟩
    | str x => simp only [wfVals] at hv; exact ⟨hv, fun g hg => by simp at hg⟩
    | bool x => simp only [wfVals] at hv; exact ⟨hv, fun g hg => by simp at hg⟩
    | date x => simp only [wfVals] at hv; exact ⟨hv, fun g hg => by simp at hg⟩
    | arr x => simp only [wfVals] at hv; exact ⟨hv, fun g hg => by simp at hg⟩
  refine ⟨hn.1, ?_, hwt.2⟩
  unfold wfR
  rw [Bool.and_eq_true, decide_eq_true_eq]
  exact ⟨by simpa [keysOf] using hn.2, hwt.1⟩

/-- Records of the same shape with an empty delta are identical. -/
theorem createDelta_eq_nil {o1 o2 : Rec} (hs : sameShape o1 o2 = true)
    (hw : wfR o2 = true) (hd : createDelta o1 o2 = []) : o1 = o2 := by
  suffices H : ∀ (n : Nat) (o1 o2 : Rec), esize o2 ≤ n → sameShape o1 o2 = true →
      wfR o2 = true → createDelta o1 o2 = [] → o1 = o2 from
    H (esize o2) o1 o2 le_rfl hs hw hd
  intro n
  induction n using Nat.strong_induction_on with
  | _ n ih =>
    intro o1 o2 hsz hs hw hd
    match o1, o2 with
    | [], [] => rfl
    | [], (k2, v2) :: t2 => simp only [sameShape, Bool.false_eq_true] at hs
    | (k1, v1) :: t1, [] => simp only [sameShape, Bool.false_eq_true] at hs
    | (k1, v1) :: t1, (k2, v2) :: t2 =>
      rw [sameShape] at hs
      simp only [Bool.and_eq_true, beq_iff_eq] at hs
      obtain ⟨⟨hk, hcomp⟩, hrest⟩ := hs
      subst hk
      obtain ⟨hknot, hwt, hobj⟩ := wfR_cons hw
      rw [createDelta] at hd
      rcases List.append_eq_nil.mp hd with ⟨hhead, htail⟩
      rw [createDelta_cons_orig v1 t1 t2 hknot] at htail
      have hvs := one_le_vsize v2
      simp only [esize] at hsz
      have hT : t1 = t2 :=
        ih (esize t2) (by omega) t1 t2 le_rfl hrest hwt htail
      have hget : getKey ((k1, v1) :: t1) k1 = some v1 := getKey_cons_self ..
      unfold deltaField at hhead
      rw [hget] at hhead
      have hv : v1 = v2 := by
        split at hhead
        · next a b heq =>
          injection heq with h1
          split at hhead
          · simp at hhead
          · next hnn =>
            rw [h1, not_not.mp hnn]
        · next a b heq =>
          injection heq with h1
          split at hhead
          · simp at hhead
          · next hnn =>
            rw [h1, not_not.mp hnn]
        · next f1 f2 heq =>
          injection heq with h1
          simp only at hhead
          split at hhead
          · simp at hhead
          · next hnn =>
            have hnil : createDelta f1 f2 = [] := not_not.mp hnn
            rw [h1] at hcomp ⊢
            rw [shapeComp] at hcomp
            have hszf : vsize (Value.obj f2) = 1 + esize f2 := rfl
            have hf : f1 = f2 :=
              ih (esize f2) (by omega) f1 f2 le_rfl hcomp (hobj f2 rfl) hnil
            rw [hf]
        · next f1 a2 heq =>
          injection heq with h1
          rw [h1] at hcomp
          rw [shapeComp] at hcomp
          simp at hcomp
        · next a1 f2 heq =>
          injection heq with h1
          rw [h1] at hcomp
          rw [shapeComp] at hcomp
          simp at hcomp
        · next w heq h5 h6 h7 h8 h9 =>
          injection heq with h1
          split at hhead
          · simp at hhead
          · next hnn =>
            rw [h1, ← not_not.mp hnn]
        · next heq => simp at heq
      rw [hv, hT]

/-- Head-field analysis, catch-all branch: a field compared by `!==` is
either unchanged or overwritten by direct assignment. -/
theorem deltaPrim_head (k : String) (v1 v2 : Value) (p : Rec)
    (h7 : ∀ o1 o2 : Rec, v1 = .obj o1 → v2 = .obj o2 → False) :
    ((if v2 ≠ v1 then [(k, v2)] else []) = [] ∧ v1 = v2) ∨
    (∃ w, (if v2 ≠ v1 then [(k, v2)] else []) = [(k, w)] ∧
      applyField ((k, v1) :: p) k w = (k, v2) :: p) := by
  by_cases hvv : v2 = v1
  · refine Or.inl ⟨?_, ?_⟩
    · rw [if_neg (not_not_intro hvv)]
    · rw [hvv]
  · refine Or.inr ⟨v2, ?_, ?_⟩
    · rw [if_pos hvv]
    · unfold applyField
      rw [getKey_cons_self]
      split
      · next tf df heqo =>
        injection heqo with ho
        exact absurd (h7 tf df ho rfl) not_false
      · exact setKey_cons_self ..

/-- The head-field analysis of the round-trip: on same-shaped records a
field either contributes nothing to the delta (and is already equal) or
contributes one entry whose application rewrites it to the updated
value. -/
theorem deltaField_head (N : Nat)
    (ihn : ∀ p2 c2 : Rec, esize c2 < N → sameShape p2 c2 = true →
      wfR c2 = true → applyDelta p2 (createDelta p2 c2) = c2)
    (k : String) (v1 v2 : Value) (p : Rec)
    (hcomp : shapeComp v1 v2 = true)
    (hwv : ∀ f, v2 = .obj f → wfR f = true)
    (hszv : vsize v2 ≤ N) :
    (deltaField ((k, v1) :: p) k v2 = [] ∧ v1 = v2) ∨
    (∃ w, deltaField ((k, v1) :: p) k v2 = [(k, w)] ∧
      applyField ((k, v1) :: p) k w = (k, v2) :: p) := by
  have hget : getKey ((k, v1) :: p) k = some v1 := getKey_cons_self ..
  unfold deltaField
  rw [hget]
  split
  · next a b heq =>
    injection heq with h1
    subst h1
    by_cases hab : b = a
    · refine Or.inl ⟨?_, ?_⟩
      · rw [if_neg (not_not_intro hab)]
      · rw [hab]
    · refine Or.inr ⟨.date b, ?_, ?_⟩
      · rw [if_pos hab]
      · unfold applyField
        rw [getKey_cons_self]
        exact setKey_cons_self ..
  · next a b heq =>
    injection heq with h1
    subst h1
    by_cases hab : b = a
    · refine Or.inl ⟨?_, ?_⟩
      · rw [if_neg (not_not_intro hab)]
      · rw [hab]
    · refine Or.inr ⟨.arr b, ?_, ?_⟩
      · rw [if_pos hab]
      · unfold applyField
        rw [getKey_cons_self]
        exact setKey_cons_self ..
  · next f1 f2 heq =>
    injection heq with h1
    subst h1
    rw [shapeComp] at hcomp
    simp only
    by_cases hnil : createDelta f1 f2 = []
    · refine Or.inl ⟨?_, ?_⟩
      · rw [if_neg (not_not_intro hnil)]
      · rw [createDelta_eq_nil hcomp (hwv f2 rfl) hnil]
    · refine Or.inr ⟨.obj (createDelta f1 f2), ?_, ?_⟩
      · rw [if_pos hnil]
      · unfold applyField
        rw [getKey_cons_self]
        show setKey ((k, Value.obj f1) :: p) k
          (Value.obj (applyDelta f1 (createDelta f1 f2))) = (k, Value.obj f2) :: p
        have hszf : vsize (Value.obj f2) = 1 + esize f2 := rfl
        rw [ihn f1 f2 (by omega) hcomp (hwv f2 rfl)]
        exact setKey_cons_self ..
  · next f1 a2 heq =>
    injection heq with h1
    rw [h1] at hcomp
    rw [shapeComp] at hcomp
    simp at hcomp
  · next a1 f2 heq =>
    injection heq with h1
    rw [h1] at hcomp
    rw [shapeComp] at hcomp
    simp at hcomp
  · next w heq h5 h6 h7 h8 h9 =>
    injection heq with h1
    subst h1
    exact deltaPrim_head k v1 _ p h7
  · next heq => simp at heq

/-- Round-trip of the delta engine on same-shaped well-formed records:
applying the computed delta to the original yields the updated record. -/
theorem applyDelta_createDelta {pub cur : Rec} (hs : sameShape pub cur = true)
    (hw : wfR cur = true) : applyDelta pub (createDelta pub cur) = cur := by
  suffices H : ∀ (n : Nat) (pub cur : Rec), esize cur ≤ n → sameShape pub cur = true →
      wfR cur = true → applyDelta pub (createDelta pub cur) = cur from
    H (esize cur) pub cur le_rfl hs hw
  intro n
  induction n using Nat.strong_induction_on with
  | _ n ih =>
    intro pub cur hsz hs hw
    match pub, cur with
    | [], [] => rw [createDelta, applyDelta]
    | [], (k2, v2) :: t2 => simp only [sameShape, Bool.false_eq_true] at hs
    | (k1, v1) :: t1, [] => simp only [sameShape, Bool.false_eq_true] at hs
    | (k1, v1) :: p, (k2, v2) :: c =>
      rw [sameShape] at hs
      simp only [Bool.and_eq_true, beq_iff_eq] at hs
      obtain ⟨⟨hk, hcomp⟩, hrest⟩ := hs
      subst hk
      obtain ⟨hknot, hwt, hobj⟩ := wfR_cons hw
      have hvs := one_le_vsize v2
      simp only [esize] at hsz
      have hkeys : k1 ∉ keysOf (createDelta p c) := by
        intro hmem
        obtain ⟨⟨k2, w⟩, hin, hk2⟩ := List.mem_map.mp hmem
        cases hk2
        exact hknot (createDelta_key_mem hin)
      have hrest2 : applyDelta p (createDelta p c) = c :=
        ih (esize c) (by omega) p c le_rfl hrest hwt
      have ihn : ∀ p2 c2 : Rec, esize c2 < n → sameShape p2 c2 = true →
          wfR c2 = true → applyDelta p2 (createDelta p2 c2) = c2 :=
        fun p2 c2 hlt hs2 hw2 => ih (esize c2) hlt p2 c2 le_rfl hs2 hw2
      rw [createDelta, createDelta_cons_orig v1 p c hknot]
      rcases deltaField_head n ihn k1 v1 v2 p hcomp hobj (by omega) with
        ⟨hd, hv⟩ | ⟨w, hd, happ⟩
      · rw [hd, List.nil_append, applyDelta_cons_skip v1 _ hkeys p, hrest2, hv]
      · rw [hd, List.cons_append, List.nil_append, applyDelta, happ,
          applyDelta_cons_skip v2 _ hkeys p, hrest2]


/-! ## Instrument manager (`src/server/instrumentManager.ts`) -/

/-- The delta message of `src/types`: `{ instrumentId, timestamp, fields }`. -/
structure DeltaUpdate where
  instrumentId : String
  timestamp : Int
  fields : Rec
  deriving Repr, DecidableEq

/-- Generic JS-`Map` lookup (`map.get(k)`). -/
def lookupS {α : Type} : List (String × α) → String → Option α
  | [], _ => none
  | (k1, v) :: t, k => if k1 = k then some v else lookupS t k

/-- Generic JS-`Map` write (`map.set(k, v)`): an existing key keeps its
insertion position, a new key is appended. -/
def setS {α : Type} : List (String × α) → String → α → List (String × α)
  | [], k, v => [(k, v)]
  | (k1, v1) :: t, k, v =>
    if k1 = k then (k1, v) :: t else (k1, v1) :: setS t k v

theorem lookupS_setS_self {α : Type} (m : List (String × α)) (k : String) (v : α) :
    lookupS (setS m k v) k = some v := by
  induction m with
  | nil => simp [setS, lookupS]
  | cons kv t ih =>
    obtain ⟨k1, v1⟩ := kv
    by_cases hk : k1 = k
    · subst hk; simp [setS, lookupS]
    · simp [setS, lookupS, hk, ih]

theorem lookupS_setS_ne {α : Type} (m : List (String × α)) {k k2 : String}
    (h : k ≠ k2) (v : α) : lookupS (setS m k v) k2 = lookupS m k2 := by
  induction m with
  | nil => simp [setS, lookupS, h]
  | cons kv t ih =>
    obtain ⟨k1, v1⟩ := kv
    by_cases hk : k1 = k
    · subst hk; simp [setS, lookupS, h, ih]
    · simp only [setS, if_neg hk, lookupS]
      by_cases hk2 : k1 = k2 <;> simp [hk2, ih]

/-- The in-memory state of `InstrumentManager`: the live instruments
and the last published snapshots (`previousStates`). -/
structure InstrumentManagerState where
  instruments : List (String × Rec)
  previousStates : List (String × Rec)

/-- Modelled from the spec: `generateDeltaUpdate` is imported from
`src/utils/deltaUpdates` by `instrumentManager.ts` but its definition is
absent from the sources (the utils module defines `createDelta`).  §4.D
prescribes exactly the delta-engine comparison of the new state against
the previous published snapshot, so we model the imported function as the
field diff computed by `createDelta` (the `fields` component the caller
reads). -/
def generateDeltaUpdate (previousState current : Rec) : Rec :=
  createDelta previousState current

/-- The loop body of `InstrumentManager.generateDeltaUpdates` (lines
461–487): walk the instruments in insertion order; where a previous
snapshot exists and the diff is non-empty, push `(id, now, fields)` and
replace the previous snapshot by a deep copy of the current state (deep
copies are value copies in this embedding). -/
def genLoop (now : Int) :
    List (String × Rec) → List (String × Rec) →
      List DeltaUpdate × List (String × Rec)
  | [], prev => ([], prev)
  | (id, inst) :: rest, prev =>
    match lookupS prev id with
    | none => genLoop now rest prev
    | some previousState =>
      let fields := generateDeltaUpdate previousState inst
      if fields ≠ [] then
        let out := genLoop now rest (setS prev id inst)
        (⟨id, now, fields⟩ :: out.1, out.2)
      else
        genLoop now rest prev

/-- Method `InstrumentManager.generateDeltaUpdates`: the emitted updates and the
manager state afterwards. -/
def generateDeltaUpdates (now : Int) (st : InstrumentManagerState) :
    List DeltaUpdate × InstrumentManagerState :=
  let out := genLoop now st.instruments st.previousStates
  (out.1, ⟨st.instruments, out.2⟩)

/-- Emitted updates always carry a non-empty field set. -/
theorem genLoop_fields_ne (now : Int) (ins prev : List (String × Rec)) :
    ∀ d ∈ (genLoop now ins prev).1, d.fields ≠ [] := by
  induction ins generalizing prev with
  | nil => intro d hd; simp [genLoop] at hd
  | cons e rest ih =>
    obtain ⟨id, inst⟩ := e
    intro d hd
    rw [genLoop] at hd
    cases hp : lookupS prev id with
    | none => rw [hp] at hd; exact ih prev d hd
    | some prevState =>
      rw [hp] at hd
      simp only at hd
      by_cases hf : generateDeltaUpdate prevState inst = []
      · rw [if_neg (not_not_intro hf)] at hd
        exact ih prev d hd
      · rw [if_pos hf] at hd
        rcases List.mem_cons.mp hd with rfl | hd2
        · exact hf
        · exact ih _ d hd2

/-- The loop never touches previous-state entries of ids outside the
instrument list it processes. -/
theorem genLoop_prev_frame (now : Int) (ins prev : List (String × Rec))
    {id : String} (h : id ∉ ins.map Prod.fst) :
    lookupS (genLoop now ins prev).2 id = lookupS prev id := by
  induction ins generalizing prev with
  | nil => rw [genLoop]
  | cons e rest ih =>
    obtain ⟨id0, inst⟩ := e
    simp only [List.map_cons, List.mem_cons, not_or] at h
    rw [genLoop]
    cases hp : lookupS prev id0 with
    | none => exact ih prev h.2
    | some prevState =>
      simp only
      by_cases hf : generateDeltaUpdate prevState inst = []
      · rw [if_neg (not_not_intro hf)]
        exact ih prev h.2
      · rw [if_pos hf]
        rw [ih _ h.2, lookupS_setS_ne _ (fun e => h.1 e.symm) inst]

/-- Every emitted update names an instrument from the processed list. -/
theorem genLoop_emit_mem (now : Int) (ins prev : List (String × Rec)) :
    ∀ d ∈ (genLoop now ins prev).1, d.instrumentId ∈ ins.map Prod.fst := by
  induction ins generalizing prev with
  | nil => intro d hd; simp [genLoop] at hd
  | cons e rest ih =>
    obtain ⟨id0, inst⟩ := e
    intro d hd
    rw [genLoop] at hd
    simp only [List.map_cons, List.mem_cons]
    cases hp : lookupS prev id0 with
    | none => rw [hp] at hd; exact Or.inr (ih prev d hd)
    | some prevState =>
      rw [hp] at hd
      simp only at hd
      by_cases hf : generateDeltaUpdate prevState inst = []
      · rw [if_neg (not_not_intro hf)] at hd
        exact Or.inr (ih prev d hd)
      · rw [if_pos hf] at hd
        rcases List.mem_cons.mp hd with rfl | hd2
        · exact Or.inl rfl
        · exact Or.inr (ih _ d hd2)

/-- Inductive core for the delta-generation pass: what one monitored
(id, previous, current) triple becomes. -/
theorem genLoop_spec (now : Int) (ins : List (String × Rec)) :
    ∀ prev : List (String × Rec), (ins.map Prod.fst).Nodup →
      ∀ {id : String} {prevState cur : Rec},
        lookupS prev id = some prevState → lookupS ins id = some cur →
        (createDelta prevState cur ≠ [] →
          (⟨id, now, createDelta prevState cur⟩ : DeltaUpdate) ∈
              (genLoop now ins prev).1 ∧
            lookupS (genLoop now ins prev).2 id = some cur) ∧
        (createDelta prevState cur = [] →
          (∀ d ∈ (genLoop now ins prev).1, d.instrumentId ≠ id) ∧
            lookupS (genLoop now ins prev).2 id = some prevState) := by
  induction ins with
  | nil =>
    intro prev _ id prevState cur _ hcur
    simp [lookupS] at hcur
  | cons e rest ih =>
    intro prev hnd id prevState cur hprev hcur
    obtain ⟨id0, inst⟩ := e
    simp only [List.map_cons, List.nodup_cons] at hnd
    by_cases hid : id0 = id
    · subst hid
      rw [lookupS] at hcur
      rw [if_pos rfl] at hcur
      injection hcur with hcur
      subst hcur
      constructor
      · intro hne
        rw [genLoop, hprev]
        simp only
        rw [if_pos (by simpa [generateDeltaUpdate] using hne)]
        refine ⟨List.mem_cons_self _ _, ?_⟩
        rw [genLoop_prev_frame now rest _ hnd.1, lookupS_setS_self]
      · intro hnil
        rw [genLoop, hprev]
        simp only
        rw [if_neg (by simpa [generateDeltaUpdate] using not_not_intro hnil)]
        refine ⟨?_, ?_⟩
        · intro d hd hid
          have := genLoop_emit_mem now rest prev d hd
          rw [hid] at this
          exact hnd.1 this
        · rw [genLoop_prev_frame now rest _ hnd.1, hprev]
    · rw [lookupS, if_neg hid] at hcur
      rw [genLoop]
      cases hp : lookupS prev id0 with
      | none => exact ih prev hnd.2 hprev hcur
      | some prevState0 =>
        simp only
        by_cases hf : generateDeltaUpdate prevState0 inst = []
        · rw [if_neg (not_not_intro hf)]
          exact ih prev hnd.2 hprev hcur
        · rw [if_pos hf]
          have hprev2 : lookupS (setS prev id0 inst) id = some prevState :=
            by rw [lookupS_setS_ne _ hid inst, hprev]
          have H := ih (setS prev id0 inst) hnd.2 hprev2 hcur
          constructor
          · intro hne
            exact ⟨List.mem_cons_of_mem _ ((H.1 hne).1), (H.1 hne).2⟩
          · intro hnil
            refine ⟨?_, (H.2 hnil).2⟩
            intro d hd
            rcases List.mem_cons.mp hd with rfl | hd2
            · exact hid
            · exact (H.2 hnil).1 d hd2


/-! ## Market simulator (`src/simulator/marketSimulator.ts`, the module
provided as `src/unnamed/part_005`) -/

/-- The categorical attributes `generateCorrelation` reads. -/
structure InstrumentAttrs where
  securityType : String
  marketSector : String
  notionalCurrency : String
  deriving Repr, DecidableEq

/-- The additive base of `generateCorrelation` before scaling and
clamping: kind/sector/currency affinities plus the random term
`(Math.random() − 0.5) * 0.2`. -/
def corrBase (a b : InstrumentAttrs) (u : ℚ) : ℚ :=
  (if a.securityType = b.securityType then (3 : ℚ) / 10 else 0)
    + (if a.marketSector = b.marketSector then (4 : ℚ) / 10 else 0)
    + (if a.notionalCurrency = b.notionalCurrency then (2 : ℚ) / 10 else 0)
    + (u - 1 / 2) * (1 / 5)

/-- Function `generateCorrelation` (part_005 lines 627–659): scale the base by the
configured correlation strength, then clamp into [−1, 1]. -/
def generateCorrelation (a b : InstrumentAttrs) (strength u : ℚ) : ℚ :=
  max (-1) (min 1 (corrBase a b u * strength))

/-- The §4.B formula as the spec words it:
`c = strength · clamp(−1, 1, 0.3·[same kind] + 0.4·[same sector] +
0.2·[same currency] + U(−0.1, 0.1))` (definition follows the spec, for
comparison against the source's `generateCorrelation`). -/
def specCorrelation (a b : InstrumentAttrs) (strength u : ℚ) : ℚ :=
  strength * max (-1) (min 1 (corrBase a b u))

theorem generateCorrelation_bounds (a b : InstrumentAttrs) (s u : ℚ) :
    -1 ≤ generateCorrelation a b s u ∧ generateCorrelation a b s u ≤ 1 := by
  unfold generateCorrelation
  exact ⟨le_max_left _ _, max_le (by norm_num) (min_le_left _ _)⟩

theorem lookupS_filter_ne {α : Type} (l : List (String × α)) {i id : String}
    (h : i ≠ id) : lookupS (l.filter (fun p => p.1 != id)) i = lookupS l i := by
  induction l with
  | nil => rfl
  | cons e t ih =>
    obtain ⟨k1, v1⟩ := e
    rw [List.filter_cons]
    by_cases hk : k1 = id
    · subst hk
      rw [if_neg (by simp)]
      rw [lookupS, if_neg (fun e => h e.symm), ih]
    · rw [if_pos (by simpa using hk)]
      rw [lookupS, lookupS]
      by_cases hki : k1 = i
      · simp [hki]
      · simp [hki, ih]

/-- The correlation-matrix state: live instruments and the sparse
symmetric coefficient map. -/
structure CorrState where
  ins : List (String × InstrumentAttrs)
  mat : String → String → Option ℚ

/-- A simulator with no instruments (`setupCorrelationMatrix` over an
empty catalog). -/
def corrInit : CorrState := ⟨[], fun _ _ => none⟩

/-- Methods `addInstrument` + `updateCorrelationMatrix` (part_005 lines 103–110,
603–622): insert the instrument, give it a fresh row, and write the same
coefficient in both directions against every other live instrument.
`u j` is the per-pair `Math.random()` draw. -/
def addInstrument (st : CorrState) (id : String) (a : InstrumentAttrs)
    (s : ℚ) (u : String → ℚ) : CorrState :=
  let ins2 := setS st.ins id a
  { ins := ins2
    mat := fun i j =>
      if i = id then
        if j = id then none
        else
          match lookupS ins2 j with
          | some aj => some (generateCorrelation a aj s (u j))
          | none => none
      else if j = id then
        match lookupS ins2 i with
        | some ai => some (generateCorrelation a ai s (u i))
        | none => st.mat i j
      else st.mat i j }

/-- Method `removeInstrument` (part_005 lines 115–126): when present, drop the
instrument, its correlation row, and its entry in every other row. -/
def removeInstrument (st : CorrState) (id : String) : CorrState :=
  if (lookupS st.ins id).isSome then
    { ins := st.ins.filter (fun p => p.1 != id)
      mat := fun i j => if i = id ∨ j = id then none else st.mat i j }
  else st

/-- Catalog operations driving the correlation graph. -/
inductive CorrOp where
  | add (id : String) (a : InstrumentAttrs) (s : ℚ) (u : String → ℚ)
  | remove (id : String)

/-- One catalog operation. -/
def corrStep (st : CorrState) : CorrOp → CorrState
  | .add id a s u => addInstrument st id a s u
  | .remove id => removeInstrument st id

/-- A run of catalog operations from the empty simulator. -/
def corrRun (ops : List CorrOp) : CorrState := ops.foldl corrStep corrInit

/-- The correlation-graph invariant: symmetry, coefficients in [−1, 1],
and entries only between distinct live instruments. -/
def CorrInv (st : CorrState) : Prop :=
  (∀ i j, st.mat i j = st.mat j i) ∧
  (∀ i j c, st.mat i j = some c → -1 ≤ c ∧ c ≤ 1) ∧
  (∀ i j, (st.mat i j).isSome →
    i ≠ j ∧ (lookupS st.ins i).isSome ∧ (lookupS st.ins j).isSome)

theorem corrInv_init : CorrInv corrInit := by
  refine ⟨fun i j => rfl, fun i j c h => ?_, fun i j h => ?_⟩
  · simp [corrInit] at h
  · simp [corrInit] at h

theorem corrInv_step (st : CorrState) (op : CorrOp) (h : CorrInv st) :
    CorrInv (corrStep st op) := by
  obtain ⟨hsym, hbnd, hwf⟩ := h
  cases op with
  | add nid a s u =>
    simp only [corrStep, addInstrument]
    have hnomat : ∀ x, x ≠ nid → lookupS (setS st.ins nid a) x = none →
        ∀ y, st.mat x y = none := by
      intro x hx hxl y
      cases hm : st.mat x y with
      | none => rfl
      | some c =>
        have := (hwf x y (by rw [hm]; rfl)).2.1
        rw [lookupS_setS_ne st.ins (fun e => hx e.symm) a] at hxl
        rw [hxl] at this
        simp at this
    refine ⟨?_, ?_, ?_⟩
    · intro i j
      simp only
      by_cases hi : i = nid
      · subst hi
        by_cases hj : j = i
        · subst hj; simp
        · simp only [eq_self_iff_true, if_true, if_neg hj]
          cases hl : lookupS (setS st.ins i a) j with
          | some aj => rfl
          | none => rw [hnomat j hj hl i]
      · by_cases hj : j = nid
        · subst hj
          simp only [eq_self_iff_true, if_true, if_neg hi]
          cases hl : lookupS (setS st.ins j a) i with
          | some ai => rfl
          | none => rw [hnomat i hi hl j]
        · simp only [if_neg hi, if_neg hj]
          exact hsym i j
    · intro i j c hc
      simp only at hc
      by_cases hi : i = nid
      · subst hi
        by_cases hj : j = i
        · subst hj; simp at hc
        · simp only [eq_self_iff_true, if_true, if_neg hj] at hc
          cases hl : lookupS (setS st.ins i a) j with
          | some aj =>
            rw [hl] at hc
            injection hc with hc
            rw [← hc]
            exact generateCorrelation_bounds a aj s (u j)
          | none => rw [hl] at hc; simp at hc
      · by_cases hj : j = nid
        · subst hj
          simp only [eq_self_iff_true, if_true, if_neg hi] at hc
          cases hl : lookupS (setS st.ins j a) i with
          | some ai =>
            rw [hl] at hc
            injection hc with hc
            rw [← hc]
            exact generateCorrelation_bounds a ai s (u i)
          | none => rw [hl] at hc; exact hbnd i j c hc
        · simp only [if_neg hi, if_neg hj] at hc
          exact hbnd i j c hc
    · intro i j hc
      simp only at hc
      by_cases hi : i = nid
      · subst hi
        by_cases hj : j = i
        · subst hj; simp at hc
        · simp only [eq_self_iff_true, if_true, if_neg hj] at hc
          cases hl : lookupS (setS st.ins i a) j with
          | some aj =>
            exact ⟨fun e => hj e.symm, by rw [lookupS_setS_self]; rfl, rfl⟩
          | none => rw [hl] at hc; simp at hc
      · by_cases hj : j = nid
        · subst hj
          simp only [eq_self_iff_true, if_true, if_neg hi] at hc
          cases hl : lookupS (setS st.ins j a) i with
          | some ai => exact ⟨hi, rfl, by rw [lookupS_setS_self]; rfl⟩
          | none =>
            rw [hl] at hc
            rw [hnomat i hi hl j] at hc
            simp at hc
        · simp only [if_neg hi, if_neg hj] at hc
          obtain ⟨hne, h1, h2⟩ := hwf i j hc
          refine ⟨hne, ?_, ?_⟩
          · rw [lookupS_setS_ne st.ins (fun e => hi e.symm) a]; exact h1
          · rw [lookupS_setS_ne st.ins (fun e => hj e.symm) a]; exact h2
  | remove nid =>
    simp only [corrStep, removeInstrument]
    by_cases hp : (lookupS st.ins nid).isSome
    · rw [if_pos hp]
      refine ⟨?_, ?_, ?_⟩
      · intro i j
        simp only
        by_cases hij : i = nid ∨ j = nid
        · rw [if_pos hij, if_pos (Or.symm hij)]
        · rw [if_neg hij, if_neg (fun hh => hij (Or.symm hh)), hsym i j]
      · intro i j c hc
        simp only at hc
        by_cases hij : i = nid ∨ j = nid
        · rw [if_pos hij] at hc; simp at hc
        · rw [if_neg hij] at hc; exact hbnd i j c hc
      · intro i j hc
        simp only at hc
        by_cases hij : i = nid ∨ j = nid
        · rw [if_pos hij] at hc; simp at hc
        · rw [if_neg hij] at hc
          push_neg at hij
          obtain ⟨hne, h1, h2⟩ := hwf i j hc
          refine ⟨hne, ?_, ?_⟩
          · rw [lookupS_filter_ne st.ins hij.1]; exact h1
          · rw [lookupS_filter_ne st.ins hij.2]; exact h2
    · rw [if_neg hp]
      exact ⟨hsym, hbnd, hwf⟩


/-- The invariant holds after any run of catalog operations. -/
theorem corrInv_run (ops : List CorrOp) : CorrInv (corrRun ops) := by
  suffices H : ∀ (st : CorrState), CorrInv st → CorrInv (ops.foldl corrStep st) from
    H corrInit corrInv_init
  induction ops with
  | nil => intro st h; exact h
  | cons op rest ih =>
    intro st h
    exact ih (corrStep st op) (corrInv_step st op h)

/-- Bond fields read by `generateBondUpdate`. -/
structure Bond where
  price : ℚ
  yield : ℚ
  duration : ℚ
  convexity : ℚ
  dv01 : ℚ
  spread : ℚ
  zSpread : ℚ
  oasSpread : ℚ
  lastTradePrice : ℚ
  lastTradeSize : ℚ
  lastTradeTime : Int
  deriving Repr, DecidableEq

/-- The `Math.random()` draws a bond tick consumes, each in [0, 1). -/
structure BondRand where
  trade : ℚ
  tradePrice : ℚ
  tradeSize : ℚ
  d1 : ℚ
  d2 : ℚ
  d3 : ℚ
  d4 : ℚ
  d5 : ℚ
  d6 : ℚ
  deriving Repr, DecidableEq

/-- The object literal `generateBondUpdate` returns.  The three trade
fields are written with the `tradeOccurred ? x : undefined` pattern: the
key is always present, `none` standing for the explicit `undefined`. -/
structure BondUpdate where
  price : ℚ
  yield : ℚ
  bidPrice : ℚ
  askPrice : ℚ
  bidYield : ℚ
  askYield : ℚ
  changeFromPrevClose : ℚ
  percentageChange : ℚ
  lastTradePrice : Option ℚ
  lastTradeSize : Option ℚ
  lastTradeTime : Option Int
  duration : ℚ
  convexity : ℚ
  dv01 : ℚ
  spread : ℚ
  zSpread : ℚ
  oasSpread : ℚ
  lastUpdate : Int
  deriving Repr, DecidableEq

/-- Function `generateBondUpdate` (part_005 lines 233–297). -/
def generateBondUpdate (bond : Bond) (priceDelta : ℚ) (r : BondRand)
    (now : Int) : BondUpdate :=
  let newPrice := max (1 / 10) (bond.price * (1 + priceDelta / 100))
  let yieldDelta := -priceDelta * (12 / 10)
  let newYield := max (1 / 100) (bond.yield + yieldDelta / 100)
  let spreadFactor := max (1 / 2) (1 + |priceDelta| * 2)
  let bidAskSpread := (5 / 100) * spreadFactor
  let tradeOccurred := r.trade < 1 / 10
  { price := newPrice
    yield := newYield
    bidPrice := newPrice * (1 - bidAskSpread / 200)
    askPrice := newPrice * (1 + bidAskSpread / 200)
    bidYield := newYield * (1 + bidAskSpread / 200)
    askYield := newYield * (1 - bidAskSpread / 200)
    changeFromPrevClose := newPrice - bond.price
    percentageChange := (newPrice - bond.price) / bond.price * 100
    lastTradePrice := if tradeOccurred then
        some (newPrice * (1 + (r.tradePrice - 1 / 2) * (1 / 1000))) else none
    lastTradeSize := if tradeOccurred then
        some ((⌊r.tradeSize * 9 + 1⌋ : ℤ) * 1000000 : ℚ) else none
    lastTradeTime := if tradeOccurred then some now else none
    duration := bond.duration * (1 + (r.d1 - 1 / 2) * (1 / 100))
    convexity := bond.convexity * (1 + (r.d2 - 1 / 2) * (5 / 1000))
    dv01 := bond.dv01 * (1 + (r.d3 - 1 / 2) * (1 / 100))
    spread := bond.spread * (1 + (r.d4 - 1 / 2) * (2 / 100))
    zSpread := bond.zSpread * (1 + (r.d5 - 1 / 2) * (2 / 100))
    oasSpread := bond.oasSpread * (1 + (r.d6 - 1 / 2) * (2 / 100))
    lastUpdate := now }

/-- The own-property list of the returned bond-update object, in literal
order; trade fields carry `none` (JS `undefined`) on non-trade ticks but
the keys are present either way. -/
def bondUpdateEntries (u : BondUpdate) : List (String × Option Value) :=
  [ ("price", some (.num u.price))
  , ("yield", some (.num u.yield))
  , ("bidPrice", some (.num u.bidPrice))
  , ("askPrice", some (.num u.askPrice))
  , ("bidYield", some (.num u.bidYield))
  , ("askYield", some (.num u.askYield))
  , ("changeFromPrevClose", some (.num u.changeFromPrevClose))
  , ("percentageChange", some (.num u.percentageChange))
  , ("lastTradePrice", u.lastTradePrice.map Value.num)
  , ("lastTradeSize", u.lastTradeSize.map Value.num)
  , ("lastTradeTime", u.lastTradeTime.map Value.date)
  , ("duration", some (.num u.duration))
  , ("convexity", some (.num u.convexity))
  , ("dv01", some (.num u.dv01))
  , ("spread", some (.num u.spread))
  , ("zSpread", some (.num u.zSpread))
  , ("oasSpread", some (.num u.oasSpread))
  , ("lastUpdate", some (.date u.lastUpdate)) ]

/-- Swap fields read by `generateSwapUpdate`. -/
structure Swap where
  swapRate : ℚ
  fixedLegDV01 : ℚ
  floatingLegDV01 : ℚ
  duration : ℚ
  dv01 : ℚ
  lastTradePrice : ℚ
  lastTradeSize : ℚ
  lastTradeTime : Int
  deriving Repr, DecidableEq

/-- Draws a swap tick consumes. -/
structure SwapRand where
  trade : ℚ
  tradePrice : ℚ
  tradeSize : ℚ
  d1 : ℚ
  d2 : ℚ
  d3 : ℚ
  d4 : ℚ
  deriving Repr, DecidableEq

/-- The object literal `generateSwapUpdate` returns. -/
structure SwapUpdate where
  swapRate : ℚ
  bidPrice : ℚ
  askPrice : ℚ
  fixedLegDV01 : ℚ
  floatingLegDV01 : ℚ
  changeFromPrevClose : ℚ
  percentageChange : ℚ
  lastTradePrice : Option ℚ
  lastTradeSize : Option ℚ
  lastTradeTime : Option Int
  duration : ℚ
  dv01 : ℚ
  lastUpdate : Int
  deriving Repr, DecidableEq

/-- Function `generateSwapUpdate` (part_005 lines 302–347). -/
def generateSwapUpdate (swap : Swap) (priceDelta : ℚ) (r : SwapRand)
    (now : Int) : SwapUpdate :=
  let swapRateDelta := priceDelta / 100
  let newSwapRate := max (1 / 1000) (swap.swapRate + swapRateDelta)
  let spreadFactor := max (1 / 2) (1 + |priceDelta| * 2)
  let bidAskSpread := (2 / 100) * spreadFactor
  let tradeOccurred := r.trade < 5 / 100
  { swapRate := newSwapRate
    bidPrice := newSwapRate * (1 - bidAskSpread / 200)
    askPrice := newSwapRate * (1 + bidAskSpread / 200)
    fixedLegDV01 := swap.fixedLegDV01 * (1 + (r.d1 - 1 / 2) * (1 / 100))
    floatingLegDV01 := swap.floatingLegDV01 * (1 + (r.d2 - 1 / 2) * (2 / 100))
    changeFromPrevClose := newSwapRate - swap.swapRate
    percentageChange := (newSwapRate - swap.swapRate) / swap.swapRate * 100
    lastTradePrice := if tradeOccurred then
        some (newSwapRate * (1 + (r.tradePrice - 1 / 2) * (5 / 10000))) else none
    lastTradeSize := if tradeOccurred then
        some ((⌊r.tradeSize * 19 + 1⌋ : ℤ) * 5000000 : ℚ) else none
    lastTradeTime := if tradeOccurred then some now else none
    duration := swap.duration * (1 + (r.d3 - 1 / 2) * (1 / 100))
    dv01 := swap.dv01 * (1 + (r.d4 - 1 / 2) * (1 / 100))
    lastUpdate := now }

/-- The own-property list of the swap-update literal (trade fields always
present, `none` = `undefined` on non-trade ticks). -/
def swapUpdateEntries (u : SwapUpdate) : List (String × Option Value) :=
  [ ("swapRate", some (.num u.swapRate))
  , ("bidPrice", some (.num u.bidPrice))
  , ("askPrice", some (.num u.askPrice))
  , ("fixedLegDV01", some (.num u.fixedLegDV01))
  , ("floatingLegDV01", some (.num u.floatingLegDV01))
  , ("changeFromPrevClose", some (.num u.changeFromPrevClose))
  , ("percentageChange", some (.num u.percentageChange))
  , ("lastTradePrice", u.lastTradePrice.map Value.num)
  , ("lastTradeSize", u.lastTradeSize.map Value.num)
  , ("lastTradeTime", u.lastTradeTime.map Value.date)
  , ("duration", some (.num u.duration))
  , ("dv01", some (.num u.dv01))
  , ("lastUpdate", some (.date u.lastUpdate)) ]

/-- The clamped future price `max(0.01, lastTradePrice·(1 + Δ/100))`
computed by `generateFutureUpdate` (part_005 line 354), the tick's
price basis for bid/ask and trade prints. -/
def futureNewPrice (lastTradePrice priceDelta : ℚ) : ℚ :=
  max (1 / 100) (lastTradePrice * (1 + priceDelta / 100))

/-- Option fields read by `generateOptionUpdate`. -/
structure OptionInst where
  premium : ℚ
  impliedVol : ℚ
  delta : ℚ
  gamma : ℚ
  theta : ℚ
  vega : ℚ
  rho : ℚ
  lastTradePrice : ℚ
  strikePrice : ℚ
  isCall : Bool
  deriving Repr, DecidableEq

/-- The option premium computed by `generateOptionUpdate` (part_005 lines
407–422): greeks P&L scaled by `lastTradePrice/100`, floored at 0.001. -/
def optionNewPremium (opt : OptionInst) (priceDelta : ℚ) : ℚ :=
  let deltaPnL := opt.delta * priceDelta
  let gammaPnL := (1 / 2) * opt.gamma * priceDelta * priceDelta
  let thetaPnL := -opt.theta / 365
  let totalPnL := deltaPnL + gammaPnL + thetaPnL
  let premiumChange := totalPnL * opt.lastTradePrice / 100
  max (1 / 1000) (opt.premium + premiumChange)


/-! ## Client manager and dispatcher
(`src/server/clientManager.ts`, socket handlers of `src/server/socketHandlers.ts`
provided as `src/unnamed/part_003`) -/

/-- The per-client token bucket of `ClientState`. -/
structure TokenBucketState where
  tokens : ℚ
  lastRefill : Int
  maxTokens : ℚ
  tokensPerSecond : ℚ
  deriving Repr, DecidableEq

/-- A client subscription (`ClientSubscription` in `src/types`); the
predicate is kept abstract here — the dispatcher consults it through
`passes`. -/
structure Subscription where
  instrumentIds : List String
  updateFrequency : Option ℚ
  deriving Repr, DecidableEq

/-- State `ClientState`: subscriptions, the token bucket, and the per-instrument
timestamp of the last update recorded for this client. -/
structure ClientState where
  subscriptions : List (String × Subscription)
  tokenBucket : TokenBucketState
  lastUpdate : List (String × Int)
  deriving Repr, DecidableEq

/-- Method `ClientManager.registerClient`: a fresh client with a full bucket. -/
def registerClient (bucketSize maxUpdatesPerSecond : ℚ) (now : Int) :
    ClientState :=
  { subscriptions := []
    tokenBucket :=
      { tokens := bucketSize
        lastRefill := now
        maxTokens := bucketSize
        tokensPerSecond := maxUpdatesPerSecond }
    lastUpdate := [] }

/-- Method `ClientManager.canSendUpdate` (clientManager.ts lines 100–125): refill
the bucket from wall time, then — if at least one token is available —
consume it AND record `lastUpdate[instrumentId] = now`.  Note that the
send time is recorded here, in the token gate, not at transport
hand-off. -/
def canSendUpdate (now : Int) (instrumentId : String) (c : ClientState) :
    Bool × ClientState :=
  let timeElapsed : ℚ := ((now - c.tokenBucket.lastRefill : Int) : ℚ) / 1000
  let tokensToAdd := timeElapsed * c.tokenBucket.tokensPerSecond
  let c1 := if tokensToAdd > 0 then
      { c with tokenBucket :=
          { c.tokenBucket with
            tokens := min c.tokenBucket.maxTokens
              (c.tokenBucket.tokens + tokensToAdd)
            lastRefill := now } }
    else c
  if c1.tokenBucket.tokens ≥ 1 then
    (true,
      { c1 with
        tokenBucket := { c1.tokenBucket with tokens := c1.tokenBucket.tokens - 1 }
        lastUpdate := setS c1.lastUpdate instrumentId now })
  else (false, c1)

/-- Method `ClientManager.shouldSendUpdate` (clientManager.ts lines 131–155):
admit iff `now − lastUpdate(instrument)` (default 0) has reached the
minimum update interval, the interval being `1000 / f` for the highest
frequency among this client's subscriptions listing the instrument
(`updateFrequency || maxUpdatesPerSecond`, via the `MAX_SAFE_INTEGER`
sentinel), falling back to `1000 / maxUpdatesPerSecond`. -/
def shouldSendUpdate (now : Int) (instrumentId : String) (c : ClientState)
    (maxUpdatesPerSecond : ℚ) : Bool :=
  let lastUpdateTime : Int := (lookupS c.lastUpdate instrumentId).getD 0
  let maxSafeInteger : ℚ := 9007199254740991
  let minInterval := c.subscriptions.foldl
    (fun acc p =>
      if instrumentId ∈ p.2.instrumentIds then
        let f := match p.2.updateFrequency with
          | some f => if f = 0 then maxUpdatesPerSecond else f
          | none => maxUpdatesPerSecond
        min acc (1000 / f)
      else acc)
    maxSafeInteger
  let minInterval :=
    if minInterval = maxSafeInteger then 1000 / maxUpdatesPerSecond
    else minInterval
  decide (((now - lastUpdateTime : Int) : ℚ) ≥ minInterval)

/-- The per-client body of the dispatcher loop in
`configureSocketHandlers` (part_003 lines 31–58): token gate first, then
the pacing gate on the state the token gate produced, then the
subscription/filter scan; `passes` stands for `passesFilter` applied to
the current snapshot.  Returns whether `instrument-update` was emitted
to this client, and the client state afterwards. -/
def processClientUpdate (now now2 : Int) (instrumentId : String)
    (maxUpdatesPerSecond : ℚ) (passes : Subscription → Bool)
    (c : ClientState) : Bool × ClientState :=
  let r1 := canSendUpdate now instrumentId c
  if ¬ r1.1 then (false, r1.2)
  else if ¬ shouldSendUpdate now2 instrumentId r1.2 maxUpdatesPerSecond then
    (false, r1.2)
  else
    (r1.2.subscriptions.any fun p =>
        instrumentId ∈ p.2.instrumentIds && passes p.2,
      r1.2)

/-! ## Filter evaluator (`ClientManager.passesFilter`, clientManager.ts
lines 83–94) -/

/-- Modelled from the spec: the predicate-tree language of §4.F/§6 as
evaluated by the external `json-logic-js` dependency (whose source is not
part of this repository): comparison, logical, and membership operators
over `{ "var": field }` references into the instrument snapshot. -/
inductive FilterExpr where
  | lit (v : Value)
  | varRef (field : String)
  | eqOp (a b : FilterExpr)
  | neOp (a b : FilterExpr)
  | ltOp (a b : FilterExpr)
  | leOp (a b : FilterExpr)
  | gtOp (a b : FilterExpr)
  | geOp (a b : FilterExpr)
  | andOp (a b : FilterExpr)
  | orOp (a b : FilterExpr)
  | notOp (a : FilterExpr)
  | inOp (a b : FilterExpr)

/-- Modelled from the spec: evaluation of a predicate tree against an
instrument snapshot, per the §4.F contract for the external evaluator —
any unsupported situation (missing field, type mismatch) raises an
error. -/
def evalFilter : FilterExpr → Rec → Except String Value
  | .lit v, _ => .ok v
  | .varRef f, inst =>
    match getKey inst f with
    | some v => .ok v
    | none => .error "missing field"
  | .eqOp a b, inst => do
    let va ← evalFilter a inst
    let vb ← evalFilter b inst
    pure (.bool (va = vb))
  | .neOp a b, inst => do
    let va ← evalFilter a inst
    let vb ← evalFilter b inst
    pure (.bool (va ≠ vb))
  | .ltOp a b, inst => do
    match ← evalFilter a inst, ← evalFilter b inst with
    | .num x, .num y => pure (.bool (x < y))
    | _, _ => .error "type mismatch"
  | .leOp a b, inst => do
    match ← evalFilter a inst, ← evalFilter b inst with
    | .num x, .num y => pure (.bool (x ≤ y))
    | _, _ => .error "type mismatch"
  | .gtOp a b, inst => do
    match ← evalFilter a inst, ← evalFilter b inst with
    | .num x, .num y => pure (.bool (y < x))
    | _, _ => .error "type mismatch"
  | .geOp a b, inst => do
    match ← evalFilter a inst, ← evalFilter b inst with
    | .num x, .num y => pure (.bool (y ≤ x))
    | _, _ => .error "type mismatch"
  | .andOp a b, inst => do
    match ← evalFilter a inst, ← evalFilter b inst with
    | .bool x, .bool y => pure (.bool (x && y))
    | _, _ => .error "type mismatch"
  | .orOp a b, inst => do
    match ← evalFilter a inst, ← evalFilter b inst with
    | .bool x, .bool y => pure (.bool (x || y))
    | _, _ => .error "type mismatch"
  | .notOp a, inst => do
    match ← evalFilter a inst with
    | .bool x => pure (.bool (!x))
    | _ => .error "type mismatch"
  | .inOp a b, inst => do
    match ← evalFilter a inst, ← evalFilter b inst with
    | va, .arr l => pure (.bool (va ∈ l))
    | _, _ => .error "type mismatch"

/-- JS truthiness of the evaluator's result when used as the gate's
boolean. -/
def jsTruthy : Value → Bool
  | .bool b => b
  | .num q => q ≠ 0
  | .str s => s ≠ ""
  | .date _ => true
  | .arr _ => true
  | .obj _ => true

/-- Method `ClientManager.passesFilter`: no filter admits everything; otherwise
evaluate, catching any evaluation error as `false` (the `try`/`catch` of
lines 88–93), so no exception ever escapes to the dispatcher. -/
def passesFilter (inst : Rec) (filter : Option FilterExpr) : Bool :=
  match filter with
  | none => true
  | some f =>
    match evalFilter f inst with
    | .ok v => jsTruthy v
    | .error _ => false

/-! ## Heap model of `applyDelta` (frame property)

`applyDelta` builds `result = { ...target }` and assigns into `result`
only; to state that it never mutates its argument we re-embed it over an
explicit heap of JS objects, with plain objects as references. -/

/-- A heap value: a primitive (number, string, boolean, `Date`, array —
all assigned directly by `applyDelta`) or a reference to a plain
object. -/
inductive HVal where
  | prim (v : Value)
  | ref (r : Nat)
  deriving Repr, DecidableEq

/-- A JS plain object on the heap. -/
structure HObj where
  fields : List (String × HVal)
  deriving Repr, DecidableEq

/-- Object allocation: append to the heap, return the new reference. -/
def alloc (h : List HObj) (o : HObj) : List HObj × Nat := (h ++ [o], h.length)

/-- Dereference (out-of-range reads the empty object). -/
def getObj (h : List HObj) (r : Nat) : HObj := h.getD r ⟨[]⟩

/-- Assignment `obj[k] = v`: in-place field assignment on the heap. -/
def setFieldH (h : List HObj) (r : Nat) (k : String) (v : HVal) : List HObj :=
  h.set r ⟨setS (getObj h r).fields k v⟩

mutual

/-- Function `applyDelta` over the heap: allocate `result = { ...target }`, then
assign each delta field into `result`, recursing into freshly-applied
sub-objects when both sides are plain objects.  `fuel` bounds the
recursion depth (the original recursion terminates on acyclic objects;
every frame fact below holds for all fuel). -/
def applyDeltaH : Nat → List HObj → Nat → Nat → List HObj × Nat
  | 0, h, t, _ => (h, t)
  | fuel + 1, h, t, d =>
    let out := alloc h ⟨(getObj h t).fields⟩
    (applyFieldsH fuel out.1 out.2 (getObj out.1 d).fields, out.2)
  termination_by fuel _ _ _ => (fuel, 0)

/-- The assignment loop of the heap-level `applyDelta`. -/
def applyFieldsH : Nat → List HObj → Nat → List (String × HVal) → List HObj
  | _, h, _, [] => h
  | fuel, h, r, (k, v) :: rest =>
    applyFieldsH fuel (applyFieldH fuel h r k v) r rest
  termination_by fuel _ _ l => (fuel, l.length + 2)

/-- One assignment of the heap-level loop: recurse into a fresh
application when both the delta value and the current field are object
references, plain `result[k] = v` otherwise. -/
def applyFieldH (fuel : Nat) (h : List HObj) (r : Nat) (k : String)
    (v : HVal) : List HObj :=
  match v, lookupS (getObj h r).fields k with
  | .ref dr, some (.ref tr) =>
    let out := applyDeltaH fuel h tr dr
    setFieldH out.1 r k (.ref out.2)
  | _, _ => setFieldH h r k v
  termination_by (fuel, 1)

end


theorem applyFieldsH_frame (fuel : Nat)
    (hA : ∀ (h : List HObj) t d N, N ≤ h.length →
      (∀ i, i < N → (applyDeltaH fuel h t d).1[i]? = h[i]?) ∧
        N ≤ (applyDeltaH fuel h t d).1.length) :
    ∀ fields (h : List HObj) r N, N ≤ h.length → N ≤ r →
      (∀ i, i < N → (applyFieldsH fuel h r fields)[i]? = h[i]?) ∧
        N ≤ (applyFieldsH fuel h r fields).length := by
  intro fields
  induction fields with
  | nil =>
    intro h r N hN hr
    rw [applyFieldsH]
    exact ⟨fun i hi => rfl, hN⟩
  | cons kv rest ih =>
    intro h r N hN hr
    obtain ⟨k, v⟩ := kv
    rw [applyFieldsH]
    have hone : (∀ i, i < N → (applyFieldH fuel h r k v)[i]? = h[i]?) ∧
        N ≤ (applyFieldH fuel h r k v).length := by
      unfold applyFieldH
      split
      · next dr tr _heq =>
        constructor
        · intro i hi
          have hne : r ≠ i := by omega
          rw [setFieldH, List.getElem?_set_ne hne]
          exact (hA h tr dr N hN).1 i hi
        · rw [setFieldH, List.length_set]
          exact (hA h tr dr N hN).2
      · constructor
        · intro i hi
          have hne : r ≠ i := by omega
          rw [setFieldH, List.getElem?_set_ne hne]
        · rw [setFieldH, List.length_set]
          exact hN
    obtain ⟨f1, f2⟩ := ih (applyFieldH fuel h r k v) r N hone.2 hr
    exact ⟨fun i hi => (f1 i hi).trans (hone.1 i hi), f2⟩

theorem applyDeltaH_frame (fuel : Nat) :
    ∀ (h : List HObj) t d N, N ≤ h.length →
      (∀ i, i < N → (applyDeltaH fuel h t d).1[i]? = h[i]?) ∧
        N ≤ (applyDeltaH fuel h t d).1.length := by
  induction fuel with
  | zero => intro h t d N hN; rw [applyDeltaH]; exact ⟨fun i hi => rfl, hN⟩
  | succ fuel ihA =>
    intro h t d N hN
    rw [applyDeltaH]
    simp only [alloc]
    obtain ⟨f1, f2⟩ := applyFieldsH_frame fuel ihA
      (getObj (h ++ [⟨(getObj h t).fields⟩]) d).fields
      (h ++ [⟨(getObj h t).fields⟩]) h.length N
      (by rw [List.length_append]; omega) hN
    refine ⟨fun i hi => ?_, f2⟩
    rw [f1 i hi, List.getElem?_append, if_pos (by omega)]


theorem lookupS_mem {α : Type} {l : List (String × α)} {k : String} {v : α}
    (h : lookupS l k = some v) : k ∈ l.map Prod.fst := by
  induction l with
  | nil => simp [lookupS] at h
  | cons kv t ih =>
    obtain ⟨k1, v1⟩ := kv
    by_cases hk : k1 = k
    · subst hk; simp
    · rw [lookupS, if_neg hk] at h
      simp only [List.map_cons, List.mem_cons]
      exact Or.inr (ih h)

/-- Every emitted update originates from a monitored pair: its fields are
exactly the diff of the current state against the previous snapshot that
was in force when the instrument was processed. -/
theorem genLoop_origin (now : Int) (ins : List (String × Rec)) :
    ∀ prev, (ins.map Prod.fst).Nodup →
      ∀ d ∈ (genLoop now ins prev).1,
        ∃ prevS cur, lookupS prev d.instrumentId = some prevS ∧
          lookupS ins d.instrumentId = some cur ∧
          d.fields = createDelta prevS cur := by
  induction ins with
  | nil => intro prev _ d hd; simp [genLoop] at hd
  | cons e rest ih =>
    intro prev hnd d hd
    obtain ⟨id0, inst⟩ := e
    simp only [List.map_cons, List.nodup_cons] at hnd
    rw [genLoop] at hd
    cases hp : lookupS prev id0 with
    | none =>
      rw [hp] at hd
      obtain ⟨ps, cur, h1, h2, h3⟩ := ih prev hnd.2 d hd
      have hne : d.instrumentId ≠ id0 := fun e => hnd.1 (e ▸ lookupS_mem h2)
      refine ⟨ps, cur, h1, ?_, h3⟩
      rw [lookupS, if_neg (fun e => hne e.symm)]
      exact h2
    | some prevState =>
      rw [hp] at hd
      simp only at hd
      by_cases hf : generateDeltaUpdate prevState inst = []
      · rw [if_neg (not_not_intro hf)] at hd
        obtain ⟨ps, cur, h1, h2, h3⟩ := ih prev hnd.2 d hd
        have hne : d.instrumentId ≠ id0 := fun e => hnd.1 (e ▸ lookupS_mem h2)
        refine ⟨ps, cur, h1, ?_, h3⟩
        rw [lookupS, if_neg (fun e => hne e.symm)]
        exact h2
      · rw [if_pos hf] at hd
        rcases List.mem_cons.mp hd with rfl | hd2
        · exact ⟨prevState, inst, hp, by rw [lookupS, if_pos rfl], rfl⟩
        · obtain ⟨ps, cur, h1, h2, h3⟩ := ih (setS prev id0 inst) hnd.2 d hd2
          have hne : d.instrumentId ≠ id0 := fun e => hnd.1 (e ▸ lookupS_mem h2)
          refine ⟨ps, cur, ?_, ?_, h3⟩
          · rw [← lookupS_setS_ne prev (fun e => hne e.symm) inst]
            exact h1
          · rw [lookupS, if_neg (fun e => hne e.symm)]
            exact h2

/-- Running `corrRun` over an appended operation steps the final state once. -/
theorem corrRun_append (ops : List CorrOp) (op : CorrOp) :
    corrRun (ops ++ [op]) = corrStep (corrRun ops) op := by
  rw [corrRun, corrRun, List.foldl_append, List.foldl_cons, List.foldl_nil]


/-! ## The claims -/

/-- A registered client (bucket 20, 10 updates/s, registered at t=1000)
holding a single subscription to `US10Y` with no frequency override. -/
def c1client : ClientState :=
  { registerClient 20 10 1000 with
    subscriptions := [("s1", ⟨["US10Y"], none⟩)] }

/-- C1.  The spec (§4.E/§4.G) admits a delta through the pacing gate iff
`now − lastSent ≥ interval`, with the send time recorded only when the
delta is handed to the transport, after the token-bucket, pacing, and
filter gates have all passed — so a delta arriving after the interval has
elapsed since the last delivered delta is admitted.  The code instead
records the send time inside `canSendUpdate` (the token gate), which the
dispatcher runs before `shouldSendUpdate`: at `now = 6000`, with a full
bucket, a 100 ms interval, and no delta ever delivered, §4.E admission
holds (first conjunct), the token gate admits and stamps
`lastUpdate = 6000` (next two conjuncts), and the pacing gate then reads
the just-written stamp, sees an elapsed time of 0, and rejects — the
dispatcher drops the delta (last two conjuncts). -/
theorem claim_C1_on_code :
    shouldSendUpdate 6000 "US10Y" c1client 10 = true ∧
    (canSendUpdate 6000 "US10Y" c1client).1 = true ∧
    lookupS (canSendUpdate 6000 "US10Y" c1client).2.lastUpdate "US10Y" =
      some 6000 ∧
    shouldSendUpdate 6000 "US10Y" (canSendUpdate 6000 "US10Y" c1client).2 10 =
      false ∧
    (processClientUpdate 6000 6000 "US10Y" 10 (fun _ => true) c1client).1 =
      false := by
  refine ⟨?_, ?_, ?_, ?_, ?_⟩ <;>
    norm_num [c1client, registerClient, canSendUpdate, shouldSendUpdate,
      processClientUpdate, lookupS, setS, min_def, max_def]

/-- C2.  On a delta-generation pass, an instrument whose diff against its
published snapshot is non-empty yields the update `(id, now, fields)` and
its published snapshot advances to (a copy of) the current state; an
instrument with an empty diff yields nothing and keeps its snapshot; and
no emitted update has empty fields. -/
theorem claim_C2 (st : InstrumentManagerState) (now : Int)
    (hnd : (st.instruments.map Prod.fst).Nodup)
    (id : String) (prev cur : Rec)
    (hprev : lookupS st.previousStates id = some prev)
    (hcur : lookupS st.instruments id = some cur) :
    (createDelta prev cur ≠ [] →
      (⟨id, now, createDelta prev cur⟩ : DeltaUpdate) ∈
          (generateDeltaUpdates now st).1 ∧
        lookupS (generateDeltaUpdates now st).2.previousStates id = some cur) ∧
    (createDelta prev cur = [] →
      (∀ d ∈ (generateDeltaUpdates now st).1, d.instrumentId ≠ id) ∧
        lookupS (generateDeltaUpdates now st).2.previousStates id = some prev) ∧
    (∀ d ∈ (generateDeltaUpdates now st).1, d.fields ≠ []) := by
  have H := genLoop_spec now st.instruments st.previousStates hnd hprev hcur
  exact ⟨fun h => by
      simpa [generateDeltaUpdates, generateDeltaUpdate] using
        H.1 (by simpa [generateDeltaUpdate] using h),
    fun h => by
      simpa [generateDeltaUpdates, generateDeltaUpdate] using
        H.2 (by simpa [generateDeltaUpdate] using h),
    genLoop_fields_ne now st.instruments st.previousStates⟩

/-- The published snapshot of `US10Y` before the pass. -/
def prevC2 : Rec := [("bidPrice", .num 98), ("status", .str "ACTIVE")]

/-- The current state of `US10Y` at the pass. -/
def curC2 : Rec := [("bidPrice", .num 99), ("status", .str "ACTIVE")]

/-- A one-instrument manager state for the witnesses. -/
def stC2 : InstrumentManagerState :=
  ⟨[("US10Y", curC2)], [("US10Y", prevC2)]⟩

theorem claim_C2_witness :
    ((⟨"US10Y", 5, createDelta prevC2 curC2⟩ : DeltaUpdate) ∈
        (generateDeltaUpdates 5 stC2).1 ∧
      lookupS (generateDeltaUpdates 5 stC2).2.previousStates "US10Y" =
        some curC2) :=
  (claim_C2 stC2 5 (by decide) "US10Y" prevC2 curC2 rfl rfl).1
    (by simp [createDelta, deltaField, getKey, prevC2, curC2])

/-- C3.  Every emitted delta has non-empty fields; every key of its
fields is a field of the current instrument record; and every value
differs (under the §4.D comparison rules, which are the equality of
`Value`) from that field's value in the published snapshot in force
immediately before emission. -/
theorem claim_C3 (st : InstrumentManagerState) (now : Int)
    (hnd : (st.instruments.map Prod.fst).Nodup) :
    ∀ d ∈ (generateDeltaUpdates now st).1,
      d.fields ≠ [] ∧
      ∃ prev cur, lookupS st.previousStates d.instrumentId = some prev ∧
        lookupS st.instruments d.instrumentId = some cur ∧
        d.fields = createDelta prev cur ∧
        ∀ kv ∈ d.fields, kv.1 ∈ keysOf cur ∧ getKey prev kv.1 ≠ some kv.2 := by
  intro d hd
  have hd2 : d ∈ (genLoop now st.instruments st.previousStates).1 := hd
  refine ⟨genLoop_fields_ne now st.instruments st.previousStates d hd2, ?_⟩
  obtain ⟨prev, cur, h1, h2, h3⟩ :=
    genLoop_origin now st.instruments st.previousStates hnd d hd2
  refine ⟨prev, cur, h1, h2, h3, ?_⟩
  intro kv hkv
  obtain ⟨k, v⟩ := kv
  rw [h3] at hkv
  exact ⟨createDelta_key_mem hkv, createDelta_entry_ne hkv⟩

theorem claim_C3_witness :
    (⟨"US10Y", 5, createDelta prevC2 curC2⟩ : DeltaUpdate).fields ≠ [] ∧
    ∃ prev cur, lookupS stC2.previousStates "US10Y" = some prev ∧
      lookupS stC2.instruments "US10Y" = some cur ∧
      (⟨"US10Y", 5, createDelta prevC2 curC2⟩ : DeltaUpdate).fields =
        createDelta prev cur ∧
      ∀ kv ∈ (⟨"US10Y", 5, createDelta prevC2 curC2⟩ : DeltaUpdate).fields,
        kv.1 ∈ keysOf cur ∧ getKey prev kv.1 ≠ some kv.2 :=
  claim_C3 stC2 5 (by decide) _
    (by simp [generateDeltaUpdates, genLoop, generateDeltaUpdate, lookupS,
      setS, stC2, prevC2, curC2, createDelta, deltaField, getKey])

/-- The bond state for the C4 evaluation. -/
def bondC4 : Bond := ⟨9875/100, 442/100, 865/100, 85/100, 1, 1, 1, 1,
  9876/100, 5000000, 1000⟩

/-- The random draws of the C4 tick: the trade draw 0.5 fails the 10%
trade probability, so no trade occurs. -/
def randC4 : BondRand := ⟨1/2, 1/2, 1/2, 1/2, 1/2, 1/2, 1/2, 1/2, 1/2⟩

/-- C4.  The claim (and §9 of the spec) requires that on a tick with no
trade the emitted update contain none of `lastTradePrice`,
`lastTradeSize`, `lastTradeTime`.  The source's object literal writes
them via `tradeOccurred ? x : undefined`, so on a non-trade tick the
emitted update still carries all three keys as own properties holding
`undefined` (and `Object.assign` then clobbers the stored values): at
the concrete non-trade tick below, the trade draw fails (first conjunct)
yet all three trade keys are present in the update's property list. -/
theorem claim_C4_on_code :
    ¬ randC4.trade < 1/10 ∧
    ("lastTradePrice", (none : Option Value)) ∈
      bondUpdateEntries (generateBondUpdate bondC4 0 randC4 2000) ∧
    ("lastTradeSize", (none : Option Value)) ∈
      bondUpdateEntries (generateBondUpdate bondC4 0 randC4 2000) ∧
    ("lastTradeTime", (none : Option Value)) ∈
      bondUpdateEntries (generateBondUpdate bondC4 0 randC4 2000) := by
  refine ⟨?_, ?_, ?_, ?_⟩ <;>
    norm_num [bondUpdateEntries, generateBondUpdate, randC4]

/-- C5.  For records of the same field structure, applying the delta
computed between the published snapshot and the current state back onto
the published snapshot yields a record field-equal to the current
state. -/
theorem claim_C5 (published current : Rec)
    (hs : sameShape published current = true) (hw : wfR current = true) :
    applyDelta published (createDelta published current) = current :=
  applyDelta_createDelta hs hw

/-- Published snapshot with a nested flat group, for the C5 witness. -/
def pubC5 : Rec :=
  [("bidPrice", .num 98), ("greeks", .obj [("delta", .num 1), ("vega", .num 2)])]

/-- Current state differing in one nested field. -/
def curC5 : Rec :=
  [("bidPrice", .num 98), ("greeks", .obj [("delta", .num 1), ("vega", .num 3)])]

theorem claim_C5_witness :
    applyDelta pubC5 (createDelta pubC5 curC5) = curC5 :=
  claim_C5 pubC5 curC5 (by simp [sameShape, shapeComp, pubC5, curC5])
    (by simp [wfR, wfVals, keysOf, curC5])

/-- C6.  For any pair of instruments, the coefficient the source computes
— `clamp(−1, 1, (0.3·[same kind] + 0.4·[same sector] + 0.2·[same
currency] + U(−0.1,0.1)) · strength)` — equals the spec's
`strength · clamp(−1, 1, 0.3·[same kind] + 0.4·[same sector] + 0.2·[same
currency] + U(−0.1,0.1))` whenever the configured strength is in [0, 1]
(the random draw `u` ranges over [0, 1], giving `U(−0.1, 0.1)` as
`(u − 0.5)·0.2`). -/
theorem claim_C6 (a b : InstrumentAttrs) (s u : ℚ)
    (hs0 : 0 ≤ s) (hs1 : s ≤ 1) (hu0 : 0 ≤ u) (hu1 : u ≤ 1) :
    generateCorrelation a b s u = specCorrelation a b s u := by
  have hbl : -(1/10) ≤ corrBase a b u ∧ corrBase a b u ≤ 1 := by
    unfold corrBase
    constructor <;> split_ifs <;> linarith
  unfold generateCorrelation specCorrelation
  have h1 : (-1 : ℚ) ≤ corrBase a b u := by linarith [hbl.1]
  have hb1 : corrBase a b u * s ≤ 1 := by nlinarith [hbl.1, hbl.2]
  have hb2 : (-1 : ℚ) ≤ corrBase a b u * s := by nlinarith [hbl.1, hbl.2]
  rw [min_eq_right hbl.2, max_eq_right h1, min_eq_right hb1,
    max_eq_right hb2, mul_comm]

/-- Attributes shared by the witness pair. -/
def attrsC6 : InstrumentAttrs := ⟨"Bond", "Government", "USD"⟩

theorem claim_C6_witness :
    generateCorrelation attrsC6 attrsC6 (7/10) (1/2) =
      specCorrelation attrsC6 attrsC6 (7/10) (1/2) :=
  claim_C6 attrsC6 attrsC6 (7/10) (1/2)
    (by norm_num) (by norm_num) (by norm_num) (by norm_num)

/-- C7.  After any sequence of instrument add/remove operations the
correlation graph is symmetric, every stored coefficient lies in
[−1, 1], and after removing an instrument no entry mentioning its id
remains in any row or column. -/
theorem claim_C7 (ops : List CorrOp) :
    (∀ i j, (corrRun ops).mat i j = (corrRun ops).mat j i) ∧
    (∀ i j c, (corrRun ops).mat i j = some c → -1 ≤ c ∧ c ≤ 1) ∧
    (∀ id j, (corrRun (ops ++ [CorrOp.remove id])).mat id j = none ∧
      (corrRun (ops ++ [CorrOp.remove id])).mat j id = none) := by
  obtain ⟨hsym, hbnd, hwf⟩ := corrInv_run ops
  refine ⟨hsym, hbnd, ?_⟩
  intro id j
  rw [corrRun_append]
  simp only [corrStep, removeInstrument]
  by_cases hp : (lookupS (corrRun ops).ins id).isSome
  · rw [if_pos hp]
    exact ⟨by simp, by simp⟩
  · rw [if_neg hp]
    constructor
    · cases hm : (corrRun ops).mat id j with
      | none => rfl
      | some c => exact absurd (hwf id j (by rw [hm]; rfl)).2.1 hp
    · cases hm : (corrRun ops).mat j id with
      | none => rfl
      | some c => exact absurd (hwf j id (by rw [hm]; rfl)).2.2 hp

/-- Catalog run for the C7 witness: add two same-sector instruments with
the pair draw fixed at 0.5 (so U(−0.1,0.1) = 0). -/
def opsC7 : List CorrOp :=
  [.add "A" attrsC6 (7/10) (fun _ => 1/2), .add "B" attrsC6 (7/10) (fun _ => 1/2)]

theorem claim_C7_witness :
    (corrRun opsC7).mat "A" "B" = some (63/100) ∧
    ((-1 : ℚ) ≤ 63/100 ∧ (63/100 : ℚ) ≤ 1) ∧
    (corrRun (opsC7 ++ [CorrOp.remove "A"])).mat "A" "B" = none := by
  have hne : ("A" : String) ≠ "B" := by decide
  have hmat : (corrRun opsC7).mat "A" "B" = some (63/100) := by
    norm_num [corrRun, corrStep, addInstrument, generateCorrelation, corrBase,
      lookupS, setS, attrsC6, opsC7, corrInit, min_def, max_def, hne]
  exact ⟨hmat, (claim_C7 opsC7).2.1 "A" "B" (63/100) hmat,
    ((claim_C7 opsC7).2.2 "A" "B").1⟩

/-- C8.  Regardless of the drawn `priceDelta` (and of every other draw),
the kind-specific floors hold: the bond tick's price is at least 0.1,
the swap tick's rate at least 0.001, the future tick's computed price at
least 0.01, and the option tick's premium at least 0.001. -/
theorem claim_C8 :
    (∀ (bond : Bond) (priceDelta : ℚ) (r : BondRand) (now : Int),
      1/10 ≤ (generateBondUpdate bond priceDelta r now).price) ∧
    (∀ (swap : Swap) (priceDelta : ℚ) (r : SwapRand) (now : Int),
      1/1000 ≤ (generateSwapUpdate swap priceDelta r now).swapRate) ∧
    (∀ lastTradePrice priceDelta : ℚ,
      1/100 ≤ futureNewPrice lastTradePrice priceDelta) ∧
    (∀ (opt : OptionInst) (priceDelta : ℚ),
      1/1000 ≤ optionNewPremium opt priceDelta) :=
  ⟨fun _ _ _ _ => le_max_left _ _, fun _ _ _ _ => le_max_left _ _,
    fun _ _ => le_max_left _ _, fun _ _ => le_max_left _ _⟩

/-- C9.  `passesFilter`: a subscription without a predicate admits
everything; any predicate whose evaluation raises an error yields
`false` (the `try`/`catch` makes `passesFilter` a total boolean, so no
exception reaches the dispatcher); and a predicate referencing an
unknown field evaluates to non-match. -/
theorem claim_C9 (inst : Rec) :
    passesFilter inst none = true ∧
    (∀ f e, evalFilter f inst = Except.error e →
      passesFilter inst (some f) = false) ∧
    (∀ k v, getKey inst k = none →
      passesFilter inst (some (.eqOp (.varRef k) (.lit v))) = false) := by
  refine ⟨rfl, ?_, ?_⟩
  · intro f e he
    simp only [passesFilter, he]
  · intro k v hk
    have he : evalFilter (.eqOp (.varRef k) (.lit v)) inst =
        .error "missing field" := by
      simp only [evalFilter, hk]
      rfl
    simp only [passesFilter, he]

/-- Snapshot for the C9 witness. -/
def instC9 : Rec := [("securityType", .str "Bond")]

/-- A predicate that raises a type-mismatch error: `"Bond" < 1`. -/
def filterC9 : FilterExpr := .ltOp (.varRef "securityType") (.lit (.num 1))

theorem claim_C9_witness :
    passesFilter instC9 none = true ∧
    passesFilter instC9 (some filterC9) = false ∧
    passesFilter instC9
      (some (.eqOp (.varRef "bogus") (.lit (.num 1)))) = false :=
  ⟨(claim_C9 instC9).1,
    (claim_C9 instC9).2.1 filterC9 "type mismatch" (by rfl),
    (claim_C9 instC9).2.2 "bogus" (.num 1) (by rfl)⟩

/-- C10.  The heap-level `applyDelta` never mutates its target: for any
target reference into the heap, the call leaves every pre-existing heap
object — the target and anything nested inside it — exactly as it was,
and returns a freshly allocated record distinct from the target. -/
theorem claim_C10 (fuel : Nat) (h : List HObj) (t d : Nat)
    (ht : t < h.length) :
    (∀ i, i < h.length → (applyDeltaH fuel h t d).1[i]? = h[i]?) ∧
    getObj (applyDeltaH fuel h t d).1 t = getObj h t ∧
    (0 < fuel → (applyDeltaH fuel h t d).2 = h.length ∧
      (applyDeltaH fuel h t d).2 ≠ t) := by
  obtain ⟨f1, f2⟩ := applyDeltaH_frame fuel h t d h.length le_rfl
  refine ⟨f1, ?_, ?_⟩
  · unfold getObj
    rw [List.getD_eq_getElem?_getD, List.getD_eq_getElem?_getD, f1 t ht]
  · intro hf
    match fuel, hf with
    | fuel + 1, _ =>
      rw [applyDeltaH]
      exact ⟨rfl, by simp only [alloc]; omega⟩

/-- A three-object heap for the C10 witness: object 0 (the target) holds
a primitive and a reference to object 1; object 2 is the delta. -/
def heapC10 : List HObj :=
  [⟨[("a", .prim (.num 1)), ("g", .ref 1)]⟩,
   ⟨[("x", .prim (.num 2))]⟩,
   ⟨[("a", .prim (.num 9))]⟩]

theorem claim_C10_witness :
    (∀ i, i < heapC10.length →
      (applyDeltaH 5 heapC10 0 2).1[i]? = heapC10[i]?) ∧
    getObj (applyDeltaH 5 heapC10 0 2).1 0 = getObj heapC10 0 ∧
    (0 < 5 → (applyDeltaH 5 heapC10 0 2).2 = heapC10.length ∧
      (applyDeltaH 5 heapC10 0 2).2 ≠ 0) :=
  claim_C10 5 heapC10 0 2 (by decide)

end RatesTrading
